import Mathlib

/-!
Verification development for the MongoDB query-string compiler/executor of
`Query_executor/mongo_exe.py` (class `MongoQueryExecutor` and the module-level
`convert_objectid`).

The Python source is shallowly embedded on `List Char` / `String`:

* `_fix_mongo_json`'s `re.sub` calls become explicit left-to-right,
  non-overlapping scan-and-rewrite passes (`rewriteScan` with one `try…`
  matcher per regex); each matcher reproduces the regex's semantics at one
  position, including greediness (the character classes involved make the
  greedy match backtracking-free).
* `json.loads` becomes a strict-JSON recursive-descent parser (`json_loads`).
  Modeling scope: numbers are integers (the pipeline never feeds it
  fraction/exponent literals), `\uXXXX` escapes decode without surrogate-pair
  combination, duplicate object keys are kept in order of appearance.
* `_parse_query_string`'s regex chain becomes `matchHead` / `matchNext` /
  `parseLoop`, reproducing `re.match` anchoring, the non-greedy `(.*?)\)`
  capture (text up to the first `)`, never across a newline, since `.` does
  not match `\n`), and the `(.*)` remainder capture that stops at a newline.
* `_execute_operations` becomes a step function `execOne` over an abstract
  collection handle; cursors are kept symbolic (`Cursor` records exactly the
  operations invoked), so theorems about "which operations reach the handle"
  are statements about the recorded structure.
* Python-specific behavior is modeled explicitly: `str.strip` (`pyStrip`),
  `str.lower` (`pyLower`, ASCII), `str.isdigit` (ASCII digits), truthiness of
  parsed JSON values (`jTruthy`), and `str()` on `ObjectId` / `datetime`.
-/

/-- The single-quote character (codepoint 39). -/
def squo : Char := Char.ofNat 39

/-- Single-quote as a one-character string. -/
def squoS : String := ⟨[squo]⟩

/-- Python `\s` on the ASCII range: space, tab, newline, carriage return,
vertical tab, form feed. Used by `str.strip` and the `\s*` parts of the
repair regexes. -/
def pyIsSpace (c : Char) : Bool :=
  c = ' ' || c = '\t' || c = '\n' || c = '\r' || c = Char.ofNat 11 || c = Char.ofNat 12

/-- Python `\w` on the ASCII range: letters, digits, underscore. -/
def isWordChar (c : Char) : Bool :=
  c.isAlpha || c.isDigit || c = '_'

/-- First character of a bare key/identifier token in `_fix_mongo_json`:
`[a-zA-Z_$]`. -/
def identStart (c : Char) : Bool :=
  c.isAlpha || c = '_' || c = '$'

/-- Continuation character of a bare key/identifier token: `[a-zA-Z0-9_$]`. -/
def identCont (c : Char) : Bool :=
  c.isAlpha || c.isDigit || c = '_' || c = '$'

/-- The `[a-f0-9]` character class of the `ObjectId` rewrite regex. -/
def isHexLower (c : Char) : Bool :=
  c.isDigit || c = 'a' || c = 'b' || c = 'c' || c = 'd' || c = 'e' || c = 'f'

/-- JSON insignificant whitespace: space, tab, newline, carriage return. -/
def isJsonWs (c : Char) : Bool :=
  c = ' ' || c = '\t' || c = '\n' || c = '\r'

/-- Python `str.strip()` on a character list: drop `\s` characters from both
ends. -/
def pyStripL (s : List Char) : List Char :=
  ((s.dropWhile pyIsSpace).reverse.dropWhile pyIsSpace).reverse

/-- Python `str.strip()`. -/
def pyStrip (s : String) : String := ⟨pyStripL s.data⟩

/-- Python `str.lower()` on the ASCII range. -/
def pyLower (s : String) : String := ⟨s.data.map Char.toLower⟩

/-- Decimal value of an ASCII digit string (the value `int(...)` computes on
an `isdigit` string). -/
def natOfDigits (l : List Char) : Nat :=
  l.foldl (fun acc c => acc * 10 + (c.toNat - 48)) 0

/-- Value tree produced by the structured-data decoder (`json.loads`):
mappings, ordered sequences, and scalars. Numbers are integers (see module
comment for scope). -/
inductive JVal where
  | jnull
  | jbool (b : Bool)
  | jint (n : Int)
  | jstr (s : String)
  | jarr (elems : List JVal)
  | jobj (fields : List (String × JVal))

/-- Skip JSON insignificant whitespace. -/
def skipWs (s : List Char) : List Char := s.dropWhile isJsonWs

/-- Hex digit value (for `\uXXXX` escapes), upper or lower case. -/
def hexDigitVal (c : Char) : Option Nat :=
  if c.isDigit then some (c.toNat - 48)
  else if 'a' ≤ c && c ≤ 'f' then some (c.toNat - 97 + 10)
  else if 'A' ≤ c && c ≤ 'F' then some (c.toNat - 65 + 10)
  else none

/-- Body of a JSON string literal, after the opening quote: characters up to
the closing quote, with the standard escapes; unescaped control characters
are rejected (strict mode). Structural on the input list. -/
def parseStrBody (acc : List Char) : List Char → Option (String × List Char)
  | [] => none
  | c :: rest =>
    if c = '"' then some (⟨acc.reverse⟩, rest)
    else if c = '\\' then
      match rest with
      | [] => none
      | 'u' :: a :: b :: c2 :: d :: rest2 =>
        match hexDigitVal a, hexDigitVal b, hexDigitVal c2, hexDigitVal d with
        | some va, some vb, some vc, some vd =>
          parseStrBody (Char.ofNat (((va * 16 + vb) * 16 + vc) * 16 + vd) :: acc) rest2
        | _, _, _, _ => none
      | e :: rest2 =>
        if e = '"' then parseStrBody ('"' :: acc) rest2
        else if e = '\\' then parseStrBody ('\\' :: acc) rest2
        else if e = '/' then parseStrBody ('/' :: acc) rest2
        else if e = 'b' then parseStrBody (Char.ofNat 8 :: acc) rest2
        else if e = 'f' then parseStrBody (Char.ofNat 12 :: acc) rest2
        else if e = 'n' then parseStrBody ('\n' :: acc) rest2
        else if e = 'r' then parseStrBody ('\r' :: acc) rest2
        else if e = 't' then parseStrBody ('\t' :: acc) rest2
        else none
    else if c.toNat < 32 then none
    else parseStrBody (c :: acc) rest

/-- Longest digit run at the head of the input. -/
def takeDigitRun : List Char → List Char × List Char
  | [] => ([], [])
  | c :: rest =>
    if c.isDigit then
      let (ds, r) := takeDigitRun rest
      (c :: ds, r)
    else ([], c :: rest)

/-- JSON integer literal: optional minus, then `0` or a nonzero-led digit run.
A following `.`/`e`/`E` (a fraction or exponent) is outside the modeled
fragment and yields `none`. -/
def parseJInt (s : List Char) : Option (Int × List Char) :=
  let (neg, s1) := match s with
    | '-' :: r => (true, r)
    | _ => (false, s)
  match s1 with
  | [] => none
  | c :: rest =>
    if !c.isDigit then none
    else
      let (ds, r) :=
        if c = '0' then ([c], rest)
        else takeDigitRun (c :: rest)
      match r with
      | e :: _ =>
        if e = '.' || e = 'e' || e = 'E' then none
        else some ((if neg then -(natOfDigits ds : Int) else (natOfDigits ds : Int)), r)
      | [] => some ((if neg then -(natOfDigits ds : Int) else (natOfDigits ds : Int)), [])

mutual

/-- Strict-JSON value at the head of the input (whitespace already skipped).
Structural on `fuel`. -/
def parseVal (fuel : Nat) (s : List Char) : Option (JVal × List Char) :=
  match fuel with
  | 0 => none
  | fuel + 1 =>
    match s with
    | '"' :: r => (parseStrBody [] r).map (fun p => (.jstr p.1, p.2))
    | '{' :: r =>
      match skipWs r with
      | '}' :: r2 => some (.jobj [], r2)
      | r2 => (parseMembers fuel r2).map (fun p => (.jobj p.1, p.2))
    | '[' :: r =>
      match skipWs r with
      | ']' :: r2 => some (.jarr [], r2)
      | r2 => (parseElems fuel r2).map (fun p => (.jarr p.1, p.2))
    | 't' :: 'r' :: 'u' :: 'e' :: r => some (.jbool true, r)
    | 'f' :: 'a' :: 'l' :: 's' :: 'e' :: r => some (.jbool false, r)
    | 'n' :: 'u' :: 'l' :: 'l' :: r => some (.jnull, r)
    | s => (parseJInt s).map (fun p => (.jint p.1, p.2))

/-- One-or-more comma-separated array elements, ending at `]`. -/
def parseElems (fuel : Nat) (s : List Char) : Option (List JVal × List Char) :=
  match fuel with
  | 0 => none
  | fuel + 1 =>
    match parseVal fuel s with
    | none => none
    | some (v, r) =>
      match skipWs r with
      | ',' :: r2 =>
        (parseElems fuel (skipWs r2)).map (fun p => (v :: p.1, p.2))
      | ']' :: r2 => some ([v], r2)
      | _ => none

/-- One-or-more `"key": value` members, ending at `}`. -/
def parseMembers (fuel : Nat) (s : List Char) : Option (List (String × JVal) × List Char) :=
  match fuel with
  | 0 => none
  | fuel + 1 =>
    match s with
    | '"' :: r =>
      match parseStrBody [] r with
      | none => none
      | some (k, r1) =>
        match skipWs r1 with
        | ':' :: r2 =>
          match parseVal fuel (skipWs r2) with
          | none => none
          | some (v, r3) =>
            match skipWs r3 with
            | ',' :: r4 =>
              (parseMembers fuel (skipWs r4)).map (fun p => ((k, v) :: p.1, p.2))
            | '}' :: r4 => some ([(k, v)], r4)
            | _ => none
        | _ => none
    | _ => none

end

/-- Model of Python's `json.loads` on the strict-JSON fragment this pipeline
uses: parse one value, then require only whitespace to the end of input.
`none` models `json.JSONDecodeError`. -/
def json_loads (s : String) : Option JVal :=
  match parseVal (2 * s.data.length + 4) (skipWs s.data) with
  | some (v, rest) => if skipWs rest = [] then some v else none
  | none => none

/-! ### The text repair normalizer `_fix_mongo_json` -/

/-- One left-to-right pass of `re.sub`: at each position try the matcher; on a
match emit its replacement and resume after the matched text (non-overlapping,
leftmost-first), otherwise keep the character and move on. Every matcher below
consumes at least one character, so `fuel = length` never runs out. -/
def rewriteScan (tryf : List Char → Option (List Char × List Char)) :
    Nat → List Char → List Char
  | _, [] => []
  | 0, s => s
  | fuel + 1, c :: rest =>
    match tryf (c :: rest) with
    | some (repl, rest2) => repl ++ rewriteScan tryf fuel rest2
    | none => c :: rewriteScan tryf fuel rest

/-- Matcher for `([{,]\s*)([a-zA-Z_$][a-zA-Z0-9_$]*)(\s*:)` (step 2 of
`_fix_mongo_json`): a `{` or `,`, whitespace, a bare key, whitespace, `:`.
Replacement wraps the key in double quotes, keeping both whitespace runs
(they are inside capture groups 1 and 3). Greedy `\s*`/identifier runs need
no backtracking: an identifier character is never whitespace or `:`. -/
def tryKey (s : List Char) : Option (List Char × List Char) :=
  match s with
  | [] => none
  | c :: rest =>
    if c = '{' || c = ',' then
      let ws1 := rest.takeWhile pyIsSpace
      match rest.dropWhile pyIsSpace with
      | [] => none
      | d :: r2 =>
        if identStart d then
          let idTail := r2.takeWhile identCont
          let r3 := r2.dropWhile identCont
          let ws2 := r3.takeWhile pyIsSpace
          match r3.dropWhile pyIsSpace with
          | ':' :: r5 =>
            some (c :: ws1 ++ '"' :: d :: idTail ++ '"' :: ws2 ++ [':'], r5)
          | _ => none
        else none
    else none

/-- Matcher for `ObjectId\("([a-f0-9]{24})"\)` (step 3): the literal call with
exactly 24 lowercase-hex characters; replacement is `{"$oid": "<hex>"}`. -/
def tryOid (s : List Char) : Option (List Char × List Char) :=
  if s.take 10 = "ObjectId(\"".data then
    let h := (s.drop 10).take 24
    if h.length = 24 && h.all isHexLower && (s.drop 34).take 2 = "\")".data then
      some ("\x7b\"$oid\": \"".data ++ h ++ "\"\x7d".data, s.drop 36)
    else none
  else none

/-- Matcher for `ISODate\("([^"]+)"\)` (step 4): the literal call with a
nonempty run of non-quote characters; replacement is `{"$date": "<text>"}`.
The greedy `[^"]+` stops exactly at the next quote, and the match requires a
`)` right after it (shortening the run cannot help, so no backtracking). -/
def tryDate (s : List Char) : Option (List Char × List Char) :=
  if s.take 9 = "ISODate(\"".data then
    let body := (s.drop 9).takeWhile (fun c => c ≠ '"')
    match s.drop 9 |>.dropWhile (fun c => c ≠ '"') with
    | '"' :: ')' :: rest =>
      if body = [] then none
      else some ("\x7b\"$date\": \"".data ++ body ++ "\"\x7d".data, rest)
    | _ => none
  else none

/-- Matcher for `([\[,])\s*([a-zA-Z_$][a-zA-Z0-9_$]*)\s*([,\]])` (step 5):
a bare identifier standing alone as an array element. The `\s*` runs are not
in any capture group, so the replacement `\1"\2"\3` drops them. -/
def tryArrElem (s : List Char) : Option (List Char × List Char) :=
  match s with
  | [] => none
  | c :: rest =>
    if c = '[' || c = ',' then
      match rest.dropWhile pyIsSpace with
      | [] => none
      | d :: r2 =>
        if identStart d then
          let idTail := r2.takeWhile identCont
          match (r2.dropWhile identCont).dropWhile pyIsSpace with
          | e :: r5 =>
            if e = ',' || e = ']' then
              some (c :: '"' :: d :: idTail ++ ['"', e], r5)
            else none
          | [] => none
        else none
    else none

/-- Step 1 of `_fix_mongo_json`: `json_string.replace("'", '"')`. -/
def replaceQuotes (s : List Char) : List Char :=
  s.map (fun c => if c = squo then '"' else c)

/-- The `_fix_mongo_json` pipeline on a character list: empty/whitespace-only
input becomes `{}`; otherwise the five repair steps run in order. -/
def fixMongoJsonL (s : List Char) : List Char :=
  if pyStripL s = [] then "\x7b\x7d".data
  else
    let s1 := replaceQuotes s
    let s2 := rewriteScan tryKey s1.length s1
    let s3 := rewriteScan tryOid s2.length s2
    let s4 := rewriteScan tryDate s3.length s3
    rewriteScan tryArrElem s4.length s4

/-- `MongoQueryExecutor._fix_mongo_json`. -/
def fix_mongo_json (s : String) : String := ⟨fixMongoJsonL s.data⟩

/-- `MongoQueryExecutor._process_query_content`: empty content is the empty
mapping; otherwise strict decode first, then repair-and-retry; a second
failure is the `Invalid query content` error (the Python code attaches the
decoder's message, which is abstracted away here). -/
def process_query_content (s : String) : Except String JVal :=
  if pyStripL s.data = [] then .ok (.jobj [])
  else
    match json_loads s with
    | some v => .ok v
    | none =>
      match json_loads (fix_mongo_json s) with
      | some v => .ok v
      | none => .error "Invalid query content"

/-! ### The call-chain tokenizer `_parse_query_string` -/

/-- One `(method, argsText)` pair of the chain (`{'method': ..., 'args': ...}`
in the Python source). -/
structure OperationCall where
  method : String
  args : String
deriving DecidableEq

/-- Result of `_parse_query_string`: the collection name and the ordered
operation sequence. -/
structure ParsedQuery where
  collection : String
  operations : List OperationCall
deriving DecidableEq

/-- The non-greedy `\((.*?)\)` capture after the opening parenthesis has been
consumed: the argument text runs to the first `)`; `.` matches neither
newline (no `re.DOTALL`) nor nothing, so a newline or end of input before
any `)` fails the whole match. -/
def scanArgs : List Char → Option (List Char × List Char)
  | [] => none
  | c :: rest =>
    if c = ')' then some ([], rest)
    else if c = '\n' then none
    else
      match scanArgs rest with
      | some (a, r) => some (c :: a, r)
      | none => none

/-- The trailing `(.*)` capture: greedy up to the end of the line (`.` does
not match `\n`; `re.match` need not consume the whole input). -/
def takeLine (s : List Char) : List Char := s.takeWhile (fun c => c ≠ '\n')

/-- A `\w+` token: the greedy word run, which must be nonempty; the greedy
run needs no backtracking because the character required after it (`.` or
`(`) is never a word character. -/
def wordTok (s : List Char) : Option (List Char × List Char) :=
  let w := s.takeWhile isWordChar
  if w = [] then none else some (w, s.dropWhile isWordChar)

/-- Require one literal character. -/
def expectCh (c : Char) : List Char → Option (List Char)
  | d :: r => if d = c then some r else none
  | [] => none

/-- Head pattern `db\.(\w+)\.(\w+)\((.*?)\)(.*)`, anchored at the start
(`re.match`). Returns collection, method, argument text, and the remainder
line. -/
def matchHead (s : List Char) : Option (String × String × String × List Char) :=
  match expectCh 'd' s with
  | none => none
  | some ra =>
    match expectCh 'b' ra with
    | none => none
    | some rb =>
      match expectCh '.' rb with
      | none => none
      | some r0 =>
        match wordTok r0 with
        | none => none
        | some (coll, r1) =>
          match expectCh '.' r1 with
          | none => none
          | some r2 =>
            match wordTok r2 with
            | none => none
            | some (m, r3) =>
              match expectCh '(' r3 with
              | none => none
              | some r4 =>
                match scanArgs r4 with
                | none => none
                | some (a, r5) => some (⟨coll⟩, ⟨m⟩, ⟨a⟩, takeLine r5)

/-- Chain pattern `\.(\w+)\((.*?)\)(.*)`, anchored at the start of the
remaining text. -/
def matchNext (s : List Char) : Option (String × String × List Char) :=
  match expectCh '.' s with
  | none => none
  | some r0 =>
    match wordTok r0 with
    | none => none
    | some (m, r1) =>
      match expectCh '(' r1 with
      | none => none
      | some r2 =>
        match scanArgs r2 with
        | none => none
        | some (a, r3) => some (⟨m⟩, ⟨a⟩, takeLine r3)

/-- The `while remaining.strip():` loop of `_parse_query_string`: parse chain
calls until the remainder is blank or stops matching (trailing unparsed text
is silently dropped). Each successful match consumes at least four
characters, so `fuel = length` never runs out. -/
def parseLoop (fuel : Nat) (remaining : List Char) (acc : List OperationCall) :
    List OperationCall :=
  if pyStripL remaining = [] then acc
  else
    match fuel with
    | 0 => acc
    | fuel + 1 =>
      match matchNext remaining with
      | none => acc
      | some (m, a, rest) => parseLoop fuel rest (acc ++ [⟨m, a⟩])

/-- `MongoQueryExecutor._parse_query_string`: strip the query, match the head
pattern (failure is the `ValueError` raised there), then loop over the chain.
-/
def parse_query_string (q : String) : Except String ParsedQuery :=
  let s := pyStripL q.data
  match matchHead s with
  | none =>
    .error ("Invalid query format. Expected " ++ squoS ++ "db.collection.method(...)" ++ squoS ++ ".")
  | some (coll, m, a, remaining) =>
    .ok ⟨coll, parseLoop remaining.length remaining [⟨m, a⟩]⟩


/-! ### Result documents and the sanitizer `convert_objectid` -/

/-- A BSON ObjectId, identified by its 24-character lowercase-hex
representation; Python's `str(ObjectId(...))` is exactly that hex string. -/
structure OID where
  hex : String
deriving DecidableEq

/-- A naive Python `datetime.datetime`. -/
structure PyDatetime where
  year : Nat
  month : Nat
  day : Nat
  hour : Nat
  minute : Nat
  second : Nat
  microsecond : Nat
deriving DecidableEq

/-- Left-pad the decimal form of `n` with zeros to width `w`. -/
def padZ (w : Nat) (n : Nat) : String :=
  let d := Nat.toDigits 10 n
  ⟨List.replicate (w - d.length) '0' ++ d⟩

/-- Python `str(datetime)`: `isoformat` with a space separator,
`YYYY-MM-DD HH:MM:SS[.ffffff]` (the fraction only when the microsecond field
is nonzero). -/
def dtStr (d : PyDatetime) : String :=
  padZ 4 d.year ++ "-" ++ padZ 2 d.month ++ "-" ++ padZ 2 d.day ++ " " ++
    padZ 2 d.hour ++ ":" ++ padZ 2 d.minute ++ ":" ++ padZ 2 d.second ++
    (if d.microsecond = 0 then "" else "." ++ padZ 6 d.microsecond)

/-- A value inside an executor result document: scalars, ObjectIds,
datetimes, ordered sequences, and (insertion-ordered) mappings. -/
inductive BVal where
  | bnull
  | bbool (b : Bool)
  | bint (n : Int)
  | bstr (s : String)
  | boid (o : OID)
  | bdate (d : PyDatetime)
  | barr (xs : List BVal)
  | bobj (kvs : List (String × BVal))

mutual

/-- The module-level `convert_objectid`: lists element-wise, dicts
value-wise, `ObjectId` and `datetime` via `str(...)`, anything else
unchanged. -/
def convert_objectid : BVal → BVal
  | .barr xs => .barr (convertObjList xs)
  | .bobj kvs => .bobj (convertObjFields kvs)
  | .boid o => .bstr o.hex
  | .bdate d => .bstr (dtStr d)
  | .bnull => .bnull
  | .bbool b => .bbool b
  | .bint n => .bint n
  | .bstr s => .bstr s

/-- `convert_objectid` mapped over a list (the list comprehension). -/
def convertObjList : List BVal → List BVal
  | [] => []
  | v :: tl => convert_objectid v :: convertObjList tl

/-- `convert_objectid` mapped over a dict's values (the dict
comprehension). -/
def convertObjFields : List (String × BVal) → List (String × BVal)
  | [] => []
  | (k, v) :: tl => (k, convert_objectid v) :: convertObjFields tl

end

/-! ### The operation executor `_execute_operations` -/

/-- Python truthiness of a decoded JSON value (`if processed_args`):
`None`, `False`, `0`, `""`, `[]`, `{}` are falsy. -/
def jTruthy : JVal → Bool
  | .jnull => false
  | .jbool b => b
  | .jint n => n != 0
  | .jstr s => s != ""
  | .jarr es => !es.isEmpty
  | .jobj fs => !fs.isEmpty

/-- Processed argument of one operation (lines 152–157 of the source): a
decoded JSON value for `find`/`aggregate`/`count`/`distinct`, `int(args)`
for an all-digit `limit`/`skip` argument, or the raw text otherwise. -/
inductive ProcArg where
  | jsonArg (v : JVal)
  | intArg (n : Nat)
  | rawArg (s : String)

/-- Cursor-opening collection calls: `find()`, `find(filter)`,
`aggregate(pipeline)`. -/
inductive BaseCur where
  | findAll
  | findWith (filter : JVal)
  | aggWith (pipeline : List JVal)

/-- A symbolic cursor: the base call plus the chain of `limit`/`skip`/`sort`
transformations invoked on it, recorded exactly as issued (so a theorem
about the result cursor is a statement about which operations reached the
collection handle). `sort` receives the raw argument text: `sort` is not in
the JSON-processed method set, so line 157 leaves its argument unprocessed.
-/
inductive Cursor where
  | base (b : BaseCur)
  | limitC (c : Cursor) (n : ProcArg)
  | skipC (c : Cursor) (n : ProcArg)
  | sortC (c : Cursor) (spec : ProcArg)

/-- The `limit`/`skip` argument processing:
`int(args) if args.strip().isdigit() else args`; Python `isdigit` is false
on the empty string. -/
def limitProc (args : String) : ProcArg :=
  let st := pyStripL args.data
  if st ≠ [] && st.all Char.isDigit then .intArg (natOfDigits st) else .rawArg args

/-- Field-name extraction of the `distinct` branch:
`list(processed_args.keys())[0] if isinstance(processed_args, dict) else
processed_args`. `none` is the `IndexError` on an empty mapping. -/
def extractField : JVal → Option JVal
  | .jobj [] => none
  | .jobj ((k, _) :: _) => some (.jstr k)
  | v => some v

/-- A value `_execute_operations` can hand back: a drained cursor
(`list(cursor)`), `None`, a `count_documents` integer, or a `distinct`
sequence. -/
inductive ExecValue where
  | docs (c : Cursor)
  | pyNone
  | intVal (n : Int)
  | listVal (l : List BVal)

/-- The injected collection handle (`self.db_connection[collection_name]`):
the operations whose results flow back into the pipeline. `countDocs` is
`count_documents(filter)`, `distinctVals` is `distinct(field)` (the field
as the decoded value the code passes), `drain` is `list(cursor)`. -/
structure Collection where
  countDocs : JVal → Int
  distinctVals : JVal → List BVal
  drain : Cursor → List BVal

/-- Outcome of processing a prefix of the operation sequence: still going
with the current cursor state, returned early with a value, or raised. -/
inductive StepRes where
  | cont (st : Option Cursor)
  | done (v : ExecValue)
  | raised (msg : String)

/-- Message of the `TypeError` Python raises when `count_documents()` is
called without its required `filter` argument (the `count` branch with a
falsy processed argument). -/
def countNoArgMsg : String :=
  "count_documents() missing 1 required positional argument: " ++ squoS ++ "filter" ++ squoS

/-- One iteration of the `for op in operations:` loop: lower-case the method,
process the argument, dispatch. Unknown methods — and `limit`/`skip`/`sort`
with no active cursor, which fail every guarded `elif` — hit the final
`else: raise ValueError(f"Unsupported method: {method}")`. -/
def execOne (col : Collection) (st : Option Cursor) (op : OperationCall) : StepRes :=
  let method := pyLower op.method
  if method = "find" || method = "aggregate" || method = "count" || method = "distinct" then
    match process_query_content op.args with
    | .error m => .raised m
    | .ok v =>
      if method = "find" then
        .cont (some (.base (if jTruthy v then .findWith v else .findAll)))
      else if method = "aggregate" then
        .cont (some (.base (.aggWith (match v with | .jarr xs => xs | w => [w]))))
      else if method = "count" then
        if jTruthy v then .done (.intVal (col.countDocs v)) else .raised countNoArgMsg
      else
        match extractField v with
        | some f => .done (.listVal (col.distinctVals f))
        | none => .raised "list index out of range"
  else if method = "limit" then
    match st with
    | some c => .cont (some (.limitC c (limitProc op.args)))
    | none => .raised ("Unsupported method: " ++ method)
  else if method = "skip" then
    match st with
    | some c => .cont (some (.skipC c (limitProc op.args)))
    | none => .raised ("Unsupported method: " ++ method)
  else if method = "sort" then
    match st with
    | some c => .cont (some (.sortC c (.rawArg op.args)))
    | none => .raised ("Unsupported method: " ++ method)
  else
    .raised ("Unsupported method: " ++ method)

/-- The `for` loop itself, threading the cursor state; `done`/`raised` stop
it (early `return` / exception). -/
def execOpsFrom (col : Collection) : Option Cursor → List OperationCall → StepRes
  | st, [] => .cont st
  | st, op :: rest =>
    match execOne col st op with
    | .cont st2 => execOpsFrom col st2 rest
    | .done v => .done v
    | .raised m => .raised m

/-- Outcome of `_execute_operations` as a whole. -/
inductive ExecOutcome where
  | value (v : ExecValue)
  | raised (msg : String)

/-- `MongoQueryExecutor._execute_operations`: run the loop from no cursor;
if it falls off the end, `return list(cursor) if cursor else None`. -/
def execute_operations (col : Collection) (ops : List OperationCall) : ExecOutcome :=
  match execOpsFrom col none ops with
  | .cont (some c) => .value (.docs c)
  | .cont none => .value .pyNone
  | .done v => .value v
  | .raised m => .raised m

/-! ### The top-level pipeline `execute_query` -/

/-- Sanitized result data (after `convert_objectid`). -/
inductive SanData where
  | docsData (l : List BVal)
  | noneData
  | intData (n : Int)
  | listData (l : List BVal)

/-- `convert_objectid` applied to the executor's result object: a drained
cursor is a list of documents (mapped element-wise), `None` and integers
pass through. -/
def sanitizeValue (col : Collection) : ExecValue → SanData
  | .docs c => .docsData ((col.drain c).map convert_objectid)
  | .pyNone => .noneData
  | .intVal n => .intData n
  | .listVal l => .listData (l.map convert_objectid)

/-- The caller-visible outcome: `{"status": "success", "data": ...}` or the
`{"error": f"Query execution failed: {...}"}` produced by the blanket
`except`. The JSON-file side effect is outside the model. -/
inductive QueryOutcome where
  | success (data : SanData)
  | failure (msg : String)

/-- `MongoQueryExecutor.execute_query` (file writing aside): parse, look up
the collection handle, execute, sanitize; every raised error surfaces as a
`Query execution failed: ...` outcome. -/
def execute_query (db : String → Collection) (q : String) : QueryOutcome :=
  match parse_query_string q with
  | .error m => .failure ("Query execution failed: " ++ m)
  | .ok p =>
    let col := db p.collection
    match execute_operations col p.operations with
    | .value v => .success (sanitizeValue col v)
    | .raised m => .failure ("Query execution failed: " ++ m)

/-- The compiler step in isolation (lines 148–157 for one operation):
lower-cased method name and processed argument; a decode failure is the
raised error. -/
def compileArg (method : String) (args : String) : Except String ProcArg :=
  if method = "find" || method = "aggregate" || method = "count" || method = "distinct" then
    (process_query_content args).map .jsonArg
  else if method = "limit" || method = "skip" then .ok (limitProc args)
  else .ok (.rawArg args)

/-- The compiled operation sequence: each call's lower-cased method paired
with its processed argument, in chain order (the per-operation classification
the executor performs before dispatching, shown as one pure pass). -/
def compileOps : List OperationCall → Except String (List (String × ProcArg))
  | [] => .ok []
  | op :: rest =>
    match compileArg (pyLower op.method) op.args with
    | .error m => .error m
    | .ok p =>
      match compileOps rest with
      | .ok ps => .ok ((pyLower op.method, p) :: ps)
      | .error m => .error m

/-- Tokenize then compile: the "tokenizer plus compiler" composition. -/
def parseCompile (q : String) : Except String (String × List (String × ProcArg)) :=
  match parse_query_string q with
  | .error m => .error m
  | .ok p =>
    match compileOps p.operations with
    | .ok ops => .ok (p.collection, ops)
    | .error m => .error m

/-! ### Auxiliary definitions used by the statements below -/

/-- The method names `_execute_operations` dispatches on. -/
def recognizedMethods : List String :=
  ["find", "aggregate", "count", "distinct", "limit", "skip", "sort"]

/-- Does the matcher fire at any position of the input? (`re.search`-style
existence, used to state when a rewrite pass is the identity.) -/
def hasMatch (tryf : List Char → Option (List Char × List Char)) : List Char → Bool
  | [] => false
  | c :: rest => (tryf (c :: rest)).isSome || hasMatch tryf rest

/-- A trivial concrete collection handle, for closed instances: every count
is `0`, every distinct/drain is empty. -/
def trivCol : Collection := ⟨fun _ => 0, fun _ => [], fun _ => []⟩

/-- A database of trivial collections. -/
def trivDb : String → Collection := fun _ => trivCol

/-- The loose fragment of the quote/key repair round-trip property:
`{status:'open', $or:[{a:1}]}`. -/
def c5loose : String :=
  "\x7bstatus:" ++ squoS ++ "open" ++ squoS ++ ", $or:[\x7ba:1\x7d]\x7d"

/-- Its strict form: `{"status": "open", "$or": [{"a": 1}]}`. -/
def c5strict : String :=
  "\x7b\"status\": \"open\", \"$or\": [\x7b\"a\": 1\x7d]\x7d"

/-- The common decoded value tree of `c5loose` (after repair) and
`c5strict`. -/
def c5tree : JVal :=
  .jobj [("status", .jstr "open"), ("$or", .jarr [.jobj [("a", .jint 1)]])]

/-- Strict JSON text whose string content holds a single quote:
`{"a": "it's"}`. -/
def c6strictInput : String := "\x7b\"a\": \"it" ++ squoS ++ "s\"\x7d"

/-- The chain `db.c.find({}).limit(5)` with the given whitespace fillers:
`wl`/`wt` surround the whole query, `w1`/`w2` and `w3`/`w4` sit inside the
two argument lists. -/
def mkC2Input (wl w1 w2 w3 w4 wt : List Char) : String :=
  ⟨wl ++ ('d' :: (("b.c.find(".data ++ w1 ++ "\x7b\x7d".data ++ w2 ++
    ").limit(".data ++ w3 ++ ['5'] ++ w4) ++ [')'])) ++ wt⟩

/-- Whitespace that can sit inside an argument list without changing the
compiled result: space, tab, carriage return (JSON whitespace minus the
newline, which the tokenizer's `.` cannot cross). -/
def argWs (c : Char) : Bool := c = ' ' || c = '\t' || c = '\r'

/-! ## Lemmas about the result sanitizer -/

/-- The list walk of `convert_objectid` is an element-wise map. -/
theorem convertObjList_eq_map (xs : List BVal) :
    convertObjList xs = xs.map convert_objectid := by
  induction xs with
  | nil => rfl
  | cons v tl ih => simp [convertObjList, ih]

/-- The dict walk of `convert_objectid` is a value-wise map. -/
theorem convertObjFields_eq_map (kvs : List (String × BVal)) :
    convertObjFields kvs = kvs.map (fun kv => (kv.1, convert_objectid kv.2)) := by
  induction kvs with
  | nil => rfl
  | cons kv tl ih =>
    cases kv
    simp [convertObjFields, ih]

mutual

/-- Sanitizing twice is sanitizing once: the output contains no ObjectId or
datetime nodes, so every constructor case of a second pass is the
identity. -/
theorem convert_objectid_idem : ∀ t : BVal,
    convert_objectid (convert_objectid t) = convert_objectid t
  | .bnull => rfl
  | .bbool _ => rfl
  | .bint _ => rfl
  | .bstr _ => rfl
  | .boid _ => rfl
  | .bdate _ => rfl
  | .barr xs => by
    show BVal.barr (convertObjList (convertObjList xs)) = .barr (convertObjList xs)
    rw [convertObjList_idem xs]
  | .bobj kvs => by
    show BVal.bobj (convertObjFields (convertObjFields kvs)) = .bobj (convertObjFields kvs)
    rw [convertObjFields_idem kvs]

/-- List companion of `convert_objectid_idem`. -/
theorem convertObjList_idem : ∀ xs : List BVal,
    convertObjList (convertObjList xs) = convertObjList xs
  | [] => rfl
  | v :: tl => by
    show convert_objectid (convert_objectid v) :: convertObjList (convertObjList tl) =
      convert_objectid v :: convertObjList tl
    rw [convert_objectid_idem v, convertObjList_idem tl]

/-- Dict companion of `convert_objectid_idem`. -/
theorem convertObjFields_idem : ∀ kvs : List (String × BVal),
    convertObjFields (convertObjFields kvs) = convertObjFields kvs
  | [] => rfl
  | (k, v) :: tl => by
    show (k, convert_objectid (convert_objectid v)) :: convertObjFields (convertObjFields tl) =
      (k, convert_objectid v) :: convertObjFields tl
    rw [convert_objectid_idem v, convertObjFields_idem tl]

end

/-! ## Claim theorems (first group) -/

/-- C3: the sanitizer walks sequences element-wise and mappings value-wise,
turns every ObjectId into its canonical hex string and every datetime into
its `str()` rendering (ISO format, space-separated), leaves every other
scalar unchanged, and sanitizing an already-sanitized tree changes
nothing. -/
theorem c3_sanitizer_spec (xs : List BVal) (kvs : List (String × BVal))
    (o : OID) (d : PyDatetime) (b : Bool) (n : Int) (s : String) (t : BVal) :
    convert_objectid (.barr xs) = .barr (xs.map convert_objectid) ∧
    convert_objectid (.bobj kvs) = .bobj (kvs.map (fun kv => (kv.1, convert_objectid kv.2))) ∧
    convert_objectid (.boid o) = .bstr o.hex ∧
    convert_objectid (.bdate d) = .bstr (dtStr d) ∧
    convert_objectid .bnull = .bnull ∧
    convert_objectid (.bbool b) = .bbool b ∧
    convert_objectid (.bint n) = .bint n ∧
    convert_objectid (.bstr s) = .bstr s ∧
    convert_objectid (convert_objectid t) = convert_objectid t := by
  refine ⟨?_, ?_, rfl, rfl, rfl, rfl, rfl, rfl, convert_objectid_idem t⟩
  · show BVal.barr (convertObjList xs) = _
    rw [convertObjList_eq_map]
  · show BVal.bobj (convertObjFields kvs) = _
    rw [convertObjFields_eq_map]

/-- C9: the head pattern does not match `not.a.query`, so the query fails
with the `Invalid query format` (MalformedQuery) error outcome; the outcome
is the same for every collection handle (no operation reaches it), and the
error arises already in `_parse_query_string`, before the repair or decode
stages can run. -/
theorem c9_malformed_query (db : String → Collection) :
    parse_query_string "not.a.query" =
      .error ("Invalid query format. Expected " ++ squoS ++ "db.collection.method(...)" ++ squoS ++ ".") ∧
    execute_query db "not.a.query" =
      .failure ("Query execution failed: Invalid query format. Expected " ++ squoS ++ "db.collection.method(...)" ++ squoS ++ ".") :=
  ⟨rfl, rfl⟩

/-- C1 counterexample: `db.c.limit(5)` has no active cursor at its `limit`,
and the outcome is an error (`Unsupported method: limit`), not a silent
no-op. -/
theorem c1_counterexample :
    execute_query trivDb "db.c.limit(5)" =
      .failure "Query execution failed: Unsupported method: limit" := rfl

/-- C1 amended: executing `limit(n)`, `skip(n)` or `sort(spec)` while no
cursor is active falls through every guarded `elif` to the
`raise ValueError(f"Unsupported method: {method}")` arm, aborting the chain
with that error — the remaining operations are not executed and the outcome
is an error, not a no-op. -/
theorem c1_amended_cursorless_transform_raises (col : Collection) (args : String)
    (rest : List OperationCall) :
    execOpsFrom col none (⟨"limit", args⟩ :: rest) = .raised "Unsupported method: limit" ∧
    execOpsFrom col none (⟨"skip", args⟩ :: rest) = .raised "Unsupported method: skip" ∧
    execOpsFrom col none (⟨"sort", args⟩ :: rest) = .raised "Unsupported method: sort" :=
  ⟨rfl, rfl, rfl⟩

/-- C5: the loose fragment `{status:'open', $or:[{a:1}]}` repairs and
decodes to exactly the value tree of the strict form
`{"status": "open", "$or": [{"a": 1}]}`, and `_process_query_content`
delivers that tree (single-quote replacement, bare-key quoting, `$`-key
quoting all verified by evaluation). -/
theorem c5_repair_roundtrip :
    json_loads (fix_mongo_json c5loose) = some c5tree ∧
    json_loads c5strict = some c5tree ∧
    process_query_content c5loose = .ok c5tree :=
  ⟨rfl, rfl, rfl⟩

/-- C6 counterexample: `{"a": "it's"}` is valid strict JSON (its decode
succeeds), yet the normalizer changes it — step 1 rewrites the single quote
inside the string literal. -/
theorem c6_counterexample :
    json_loads c6strictInput = some (.jobj [("a", .jstr ("it" ++ squoS ++ "s"))]) ∧
    fix_mongo_json c6strictInput ≠ c6strictInput :=
  ⟨rfl, by decide⟩

/-- C2 counterexample: one whitespace variation — a single space before
`.limit` — makes the chain loop stop (the `\.(\w+)\(` pattern is anchored),
so the compiled sequence is `[Find({})]` alone: the result is not
whitespace-independent. -/
theorem c2_counterexample :
    parseCompile "db.c.find(\x7b\x7d) .limit(5)" =
      .ok ("c", [("find", .jsonArg (.jobj []))]) ∧
    parseCompile "db.c.find(\x7b\x7d) .limit(5)" ≠
      .ok ("c", [("find", .jsonArg (.jobj [])), ("limit", .intArg 5)]) := by
  refine ⟨rfl, fun h => ?_⟩
  rw [show parseCompile "db.c.find(\x7b\x7d) .limit(5)" =
    .ok ("c", [("find", .jsonArg (.jobj []))]) from rfl] at h
  simp at h

/-! ## Lemmas about the executor loop -/

/-- Splitting the operation loop at an append: run the prefix; if it is
still going, run the suffix from the reached state. -/
theorem execOpsFrom_append (col : Collection) (st : Option Cursor)
    (xs ys : List OperationCall) :
    execOpsFrom col st (xs ++ ys) =
      match execOpsFrom col st xs with
      | .cont st2 => execOpsFrom col st2 ys
      | .done v => .done v
      | .raised m => .raised m := by
  induction xs generalizing st with
  | nil => simp [execOpsFrom]
  | cons op tl ih =>
    simp only [List.cons_append, execOpsFrom]
    cases execOne col st op with
    | cont st2 => exact ih st2
    | done v => rfl
    | raised m => rfl

/-- A `count` step, unfolded: decode the argument; a truthy filter returns
`count_documents(filter)` immediately, a falsy one is the no-argument
`count_documents()` call, a `TypeError`. Never `cont`. -/
theorem execOne_count (col : Collection) (st : Option Cursor) (args : String) :
    execOne col st ⟨"count", args⟩ =
      match process_query_content args with
      | .error m => .raised m
      | .ok v =>
        if jTruthy v then .done (.intVal (col.countDocs v)) else .raised countNoArgMsg := rfl

/-- A `distinct` step, unfolded: decode the argument, take the first key of
a mapping (or the value itself), return `distinct(field)` immediately.
Never `cont`, and independent of the cursor state. -/
theorem execOne_distinct (col : Collection) (st : Option Cursor) (args : String) :
    execOne col st ⟨"distinct", args⟩ =
      match process_query_content args with
      | .error m => .raised m
      | .ok v =>
        match extractField v with
        | some f => .done (.listVal (col.distinctVals f))
        | none => .raised "list index out of range" := rfl

/-- An unrecognized (lower-cased) method name falls through every branch of
the dispatch to the final `raise`, whatever the cursor state. -/
theorem execOne_unknown (col : Collection) (st : Option Cursor) (op : OperationCall)
    (h : pyLower op.method ∉ recognizedMethods) :
    execOne col st op = .raised ("Unsupported method: " ++ pyLower op.method) := by
  simp only [recognizedMethods, List.mem_cons, List.not_mem_nil, or_false, not_or] at h
  obtain ⟨h1, h2, h3, h4, h5, h6, h7⟩ := h
  simp [execOne, h1, h2, h3, h4, h5, h6, h7]

/-- C4: the chain short-circuits at `count` — everything after it is
irrelevant unconditionally (part 1), and when the loop reaches the `count`
with a decodable truthy filter the result is the `count_documents` integer,
never a document sequence (part 2); `distinct` likewise returns its terminal
sequence immediately from any prior cursor state (part 3). -/
theorem c4_count_distinct_short_circuit (col : Collection) (st st2 : Option Cursor)
    (pre post : List OperationCall) (cargs dargs : String) (v w f : JVal) :
    execOpsFrom col st (pre ++ ⟨"count", cargs⟩ :: post) =
      execOpsFrom col st (pre ++ [⟨"count", cargs⟩]) ∧
    (execOpsFrom col st pre = .cont st2 → process_query_content cargs = .ok v →
      jTruthy v = true →
      execOpsFrom col st (pre ++ ⟨"count", cargs⟩ :: post) =
        .done (.intVal (col.countDocs v))) ∧
    (process_query_content dargs = .ok w → extractField w = some f →
      execOpsFrom col st2 (⟨"distinct", dargs⟩ :: post) =
        .done (.listVal (col.distinctVals f))) := by
  refine ⟨?_, ?_, ?_⟩
  · rw [execOpsFrom_append, execOpsFrom_append]
    cases execOpsFrom col st pre with
    | cont c =>
      simp only [execOpsFrom, execOne_count]
      cases process_query_content cargs with
      | error m => rfl
      | ok u =>
        by_cases hu : jTruthy u
        · simp [hu]
        · simp [hu]
    | done v2 => rfl
    | raised m => rfl
  · intro h1 h2 h3
    rw [execOpsFrom_append, h1]
    simp only [execOpsFrom, execOne_count, h2, h3, if_true]
  · intro h1 h2
    simp only [execOpsFrom, execOne_distinct, h1, h2]

/-- C4 witness: a concrete run — `count({a:1})` followed by a `limit(5)`
returns the integer immediately, and `distinct('status')` returns the
distinct sequence from a cursor-less state. -/
theorem c4_witness :
    (process_query_content "\x7ba:1\x7d" = .ok (.jobj [("a", .jint 1)]) ∧
      jTruthy (.jobj [("a", .jint 1)]) = true) ∧
    execOpsFrom trivCol none ([] ++ ⟨"count", "\x7ba:1\x7d"⟩ :: [⟨"limit", "5"⟩]) =
      .done (.intVal (trivCol.countDocs (.jobj [("a", .jint 1)]))) ∧
    execOpsFrom trivCol none (⟨"distinct", squoS ++ "status" ++ squoS⟩ :: [⟨"limit", "5"⟩]) =
      .done (.listVal (trivCol.distinctVals (.jstr "status"))) :=
  ⟨⟨rfl, rfl⟩,
    (c4_count_distinct_short_circuit trivCol none none [] [⟨"limit", "5"⟩]
      "\x7ba:1\x7d" (squoS ++ "status" ++ squoS) (.jobj [("a", .jint 1)])
      (.jstr "status") (.jstr "status")).2.1 rfl rfl rfl,
    (c4_count_distinct_short_circuit trivCol none none [] [⟨"limit", "5"⟩]
      "\x7ba:1\x7d" (squoS ++ "status" ++ squoS) (.jobj [("a", .jint 1)])
      (.jstr "status") (.jstr "status")).2.2 rfl rfl⟩

/-- C8 counterexample: the chain `db.orders.count({a:1}).bogus({})` contains
the unrecognized method `bogus`, yet the outcome is the successful count
(the terminal `count` returns before `bogus` is examined), not an
`UnsupportedMethod` error. -/
theorem c8_counterexample :
    execute_query trivDb "db.orders.count(\x7ba:1\x7d).bogus(\x7b\x7d)" =
      .success (.intData 0) ∧
    execute_query trivDb "db.orders.count(\x7ba:1\x7d).bogus(\x7b\x7d)" ≠
      .failure "Query execution failed: Unsupported method: bogus" := by
  refine ⟨rfl, fun h => ?_⟩
  rw [show execute_query trivDb "db.orders.count(\x7ba:1\x7d).bogus(\x7b\x7d)" =
    .success (.intData 0) from rfl] at h
  exact QueryOutcome.noConfusion h

/-- C8 amended: an unrecognized method name (after lower-casing) produces
the `UnsupportedMethod` error carrying that name whenever the loop reaches
it still running (no earlier terminal or raising operation); and
`db.orders.unsupported({})` fails that way without any operation reaching
the collection handle (the outcome is this error for an arbitrary
handle). -/
theorem c8_amended_unsupported_method (col : Collection) (st : Option Cursor)
    (pre post : List OperationCall) (op : OperationCall)
    (hpre : execOpsFrom col none pre = .cont st)
    (hm : pyLower op.method ∉ recognizedMethods) :
    execOpsFrom col none (pre ++ op :: post) =
      .raised ("Unsupported method: " ++ pyLower op.method) ∧
    execute_query (fun _ => col) "db.orders.unsupported(\x7b\x7d)" =
      .failure "Query execution failed: Unsupported method: unsupported" := by
  constructor
  · rw [execOpsFrom_append, hpre]
    simp only [execOpsFrom]
    rw [execOne_unknown col st op hm]
  · rfl

/-- C8 witness: the amended statement at a concrete chain (`bogus` as the
first reached operation) and a concrete collection handle. -/
theorem c8_witness :
    execOpsFrom trivCol none ([] ++ ⟨"bogus", ""⟩ :: []) =
      .raised ("Unsupported method: " ++ pyLower "bogus") ∧
    execute_query (fun _ => trivCol) "db.orders.unsupported(\x7b\x7d)" =
      .failure "Query execution failed: Unsupported method: unsupported" :=
  c8_amended_unsupported_method trivCol none [] [] ⟨"bogus", ""⟩ rfl (by decide)

/-! ## Lemmas about the rewrite scanner -/

/-- A pass whose matcher fires nowhere is the identity. -/
theorem rewriteScan_of_no_match (tryf : List Char → Option (List Char × List Char)) :
    ∀ fuel s, hasMatch tryf s = false → rewriteScan tryf fuel s = s := by
  intro fuel
  induction fuel with
  | zero => intro s _; cases s <;> rfl
  | succ fuel ih =>
    intro s h
    cases s with
    | nil => rfl
    | cons c rest =>
      simp only [hasMatch, Bool.or_eq_false_iff] at h
      obtain ⟨h1, h2⟩ := h
      have hn : tryf (c :: rest) = none := by
        cases hh : tryf (c :: rest) with
        | none => rfl
        | some p => rw [hh] at h1; simp at h1
      simp only [rewriteScan, hn]
      rw [ih rest h2]

/-- Step 1 is the identity on quote-free text. -/
theorem replaceQuotes_of_no_quote (s : List Char) (h : ∀ c ∈ s, c ≠ squo) :
    replaceQuotes s = s := by
  induction s with
  | nil => rfl
  | cons c rest ih =>
    simp only [replaceQuotes, List.map_cons]
    rw [if_neg (h c (by simp))]
    exact congrArg (List.cons c) (ih fun d hd => h d (List.mem_cons_of_mem c hd))

/-- C6 amended: on text with no single quote and no occurrence of any of the
four rewrite patterns — in particular on already-strict text whose string
literals avoid those shapes — `_fix_mongo_json` is the identity. (The
counterexample shows the original claim's unconditional form fails: a single
quote inside a strict string literal is rewritten.) -/
theorem c6_amended_identity_conditions (s : String)
    (h0 : pyStripL s.data ≠ [])
    (h1 : ∀ c ∈ s.data, c ≠ squo)
    (h2 : hasMatch tryKey s.data = false)
    (h3 : hasMatch tryOid s.data = false)
    (h4 : hasMatch tryDate s.data = false)
    (h5 : hasMatch tryArrElem s.data = false) :
    fix_mongo_json s = s := by
  obtain ⟨d⟩ := s
  show (⟨fixMongoJsonL d⟩ : String) = ⟨d⟩
  simp only [fixMongoJsonL]
  rw [if_neg h0]
  rw [replaceQuotes_of_no_quote d h1]
  rw [rewriteScan_of_no_match tryKey _ _ h2]
  rw [rewriteScan_of_no_match tryOid _ _ h3]
  rw [rewriteScan_of_no_match tryDate _ _ h4]
  rw [rewriteScan_of_no_match tryArrElem _ _ h5]

/-- C6 witness: the spec's strict example `{"status": "open"}` meets every
side condition and passes through unchanged. -/
theorem c6_witness :
    (pyStripL "\x7b\"status\": \"open\"\x7d".data ≠ [] ∧
      (∀ c ∈ "\x7b\"status\": \"open\"\x7d".data, c ≠ squo) ∧
      hasMatch tryKey "\x7b\"status\": \"open\"\x7d".data = false ∧
      hasMatch tryOid "\x7b\"status\": \"open\"\x7d".data = false ∧
      hasMatch tryDate "\x7b\"status\": \"open\"\x7d".data = false ∧
      hasMatch tryArrElem "\x7b\"status\": \"open\"\x7d".data = false) ∧
    fix_mongo_json "\x7b\"status\": \"open\"\x7d" = "\x7b\"status\": \"open\"\x7d" :=
  ⟨⟨by decide, by decide, by decide, by decide, by decide, by decide⟩,
    c6_amended_identity_conditions "\x7b\"status\": \"open\"\x7d"
      (by decide) (by decide) (by decide) (by decide) (by decide) (by decide)⟩

/-! ## Lemmas about the tokenizer -/

/-- The argument capture stops at the first `)`: the captured text never
contains one. -/
theorem scanArgs_no_rparen : ∀ s a r, scanArgs s = some (a, r) → ')' ∉ a := by
  intro s
  induction s with
  | nil => intro a r h; exact Option.noConfusion h
  | cons c rest ih =>
    intro a r h
    simp only [scanArgs] at h
    by_cases hc : c = ')'
    · rw [if_pos hc] at h
      injection h with h2
      injection h2 with h3 h4
      subst h3
      simp
    · rw [if_neg hc] at h
      by_cases hn : c = '\n'
      · rw [if_pos hn] at h; exact Option.noConfusion h
      · rw [if_neg hn] at h
        cases hs : scanArgs rest with
        | none => rw [hs] at h; exact Option.noConfusion h
        | some p =>
          obtain ⟨a2, r2⟩ := p
          rw [hs] at h
          injection h with h2
          injection h2 with h3 h4
          subst h3
          simp only [List.mem_cons, not_or]
          exact ⟨fun e => hc e.symm, ih a2 r2 hs⟩


/-- The head match's argument text comes from `scanArgs`, so it contains no
`)`. -/
theorem matchHead_args (s : List Char) (coll m a : String) (rem : List Char)
    (h : matchHead s = some (coll, m, a, rem)) : ')' ∉ a.data := by
  unfold matchHead at h
  split at h <;> try exact Option.noConfusion h
  split at h <;> try exact Option.noConfusion h
  split at h <;> try exact Option.noConfusion h
  split at h <;> try exact Option.noConfusion h
  split at h <;> try exact Option.noConfusion h
  split at h <;> try exact Option.noConfusion h
  split at h <;> try exact Option.noConfusion h
  split at h <;> try exact Option.noConfusion h
  rename_i aa r5 h5
  injection h with heq
  injection heq with e1 heq
  injection heq with e2 heq
  injection heq with e3 e4
  subst e3
  exact scanArgs_no_rparen _ aa r5 h5

/-- The chain match's argument text comes from `scanArgs`, so it contains no
`)`. -/
theorem matchNext_args (s : List Char) (m a : String) (rem : List Char)
    (h : matchNext s = some (m, a, rem)) : ')' ∉ a.data := by
  unfold matchNext at h
  split at h <;> try exact Option.noConfusion h
  split at h <;> try exact Option.noConfusion h
  split at h <;> try exact Option.noConfusion h
  split at h <;> try exact Option.noConfusion h
  rename_i aa r3 h3
  injection h with heq
  injection heq with e1 heq
  injection heq with e2 e3
  subst e2
  exact scanArgs_no_rparen _ aa r3 h3

/-- The chain loop only ever appends operations whose argument text came
from `scanArgs`; the `no )` property of the accumulator is preserved. -/
theorem parseLoop_inv (fuel : Nat) : ∀ (remaining : List Char) (acc : List OperationCall),
    (∀ op ∈ acc, ')' ∉ op.args.data) →
    ∀ op ∈ parseLoop fuel remaining acc, ')' ∉ op.args.data := by
  induction fuel with
  | zero =>
    intro remaining acc hacc
    simp only [parseLoop]
    split
    · exact hacc
    · exact hacc
  | succ fuel ih =>
    intro remaining acc hacc
    simp only [parseLoop]
    split
    · exact hacc
    · cases hmn : matchNext remaining with
      | none => exact hacc
      | some t =>
        obtain ⟨m, a, rest⟩ := t
        refine ih rest (acc ++ [⟨m, a⟩]) ?_
        intro op hop
        rcases List.mem_append.mp hop with hmem | hmem
        · exact hacc op hmem
        · rw [List.mem_singleton.mp hmem]
          exact matchNext_args remaining m a rest hmn

/-- C10: for every accepted input, no produced operation's raw argument text
contains a `)` (the non-greedy capture ends at the first one); consequently
an argument whose literal contains `)` — the embedded `ObjectId(...)` call —
is split at that first `)`, the rest staying in the remainder text, as the
concrete second conjunct shows. -/
theorem c10_args_no_rparen (q : String) (r : ParsedQuery)
    (h : parse_query_string q = .ok r) :
    (∀ op ∈ r.operations, ')' ∉ op.args.data) ∧
    parse_query_string "db.c.find(\x7b_id: ObjectId(\"507f1f77bcf86cd799439011\")\x7d)" =
      .ok ⟨"c", [⟨"find", "\x7b_id: ObjectId(\"507f1f77bcf86cd799439011\""⟩]⟩ := by
  refine ⟨?_, rfl⟩
  simp only [parse_query_string] at h
  cases hmh : matchHead (pyStripL q.data) with
  | none => rw [hmh] at h; exact Except.noConfusion h
  | some quad =>
    obtain ⟨coll, m, a, rem⟩ := quad
    rw [hmh] at h
    injection h with h2
    subst h2
    refine parseLoop_inv rem.length rem [⟨m, a⟩] ?_
    intro op hop
    rw [List.mem_singleton.mp hop]
    exact matchHead_args (pyStripL q.data) coll m a rem hmh

/-- C10 witness: the invariant applied to the concrete embedded-ObjectId
chain. -/
theorem c10_witness :
    parse_query_string "db.c.find(\x7b_id: ObjectId(\"507f1f77bcf86cd799439011\")\x7d)" =
      .ok ⟨"c", [⟨"find", "\x7b_id: ObjectId(\"507f1f77bcf86cd799439011\""⟩]⟩ ∧
    ')' ∉ ("\x7b_id: ObjectId(\"507f1f77bcf86cd799439011\"" : String).data :=
  ⟨rfl,
    (c10_args_no_rparen "db.c.find(\x7b_id: ObjectId(\"507f1f77bcf86cd799439011\")\x7d)"
        ⟨"c", [⟨"find", "\x7b_id: ObjectId(\"507f1f77bcf86cd799439011\""⟩]⟩ rfl).1
      ⟨"find", "\x7b_id: ObjectId(\"507f1f77bcf86cd799439011\""⟩ (by simp)⟩

/-! ## Lemmas about the constructor-call rewrite -/

/-- A lowercase-hex character is none of the characters that could trigger
the other repair passes or the quote replacement. -/
theorem isHexLower_not_special (c : Char) (h : isHexLower c = true) :
    c ≠ squo ∧ c ≠ '\x7b' ∧ c ≠ ',' ∧ c ≠ '[' ∧ c ≠ 'I' := by
  simp only [isHexLower, Bool.or_eq_true, decide_eq_true_eq] at h
  rcases h with hd | rfl | rfl | rfl | rfl | rfl | rfl
  · refine ⟨?_, ?_, ?_, ?_, ?_⟩ <;> (intro e; subst e; revert hd; decide)
  all_goals decide

/-- The key-quoting pattern needs a `{` or `,` to start. -/
theorem tryKey_head_none (c : Char) (rest : List Char) (h1 : c ≠ '\x7b') (h2 : c ≠ ',') :
    tryKey (c :: rest) = none := by
  simp only [tryKey]
  rw [if_neg (by simp [h1, h2])]

/-- The key-quoting pass fires nowhere on text without `{` or `,`. -/
theorem hasMatch_tryKey_false (s : List Char) (h : ∀ c ∈ s, c ≠ '\x7b' ∧ c ≠ ',') :
    hasMatch tryKey s = false := by
  induction s with
  | nil => rfl
  | cons c rest ih =>
    simp only [hasMatch, Bool.or_eq_false_iff]
    refine ⟨?_, ih fun d hd => h d (List.mem_cons_of_mem c hd)⟩
    rw [tryKey_head_none c rest (h c (List.mem_cons_self c rest)).1
      (h c (List.mem_cons_self c rest)).2]
    rfl

/-- The `ISODate` pattern needs an `I` to start. -/
theorem tryDate_head_none (c : Char) (rest : List Char) (hc : c ≠ 'I') :
    tryDate (c :: rest) = none := by
  have hne : ¬((c :: rest).take 9 = ("ISODate(\"").data) := by
    rw [show (c :: rest).take 9 = c :: rest.take 8 from rfl,
      show ("ISODate(\"").data = 'I' :: ("SODate(\"").data from rfl]
    intro heq
    injection heq with e1 e2
    exact hc e1
  simp only [tryDate]
  rw [if_neg hne]

/-- The `ISODate` pass fires nowhere on text without `I`. -/
theorem hasMatch_tryDate_false (s : List Char) (h : ∀ c ∈ s, c ≠ 'I') :
    hasMatch tryDate s = false := by
  induction s with
  | nil => rfl
  | cons c rest ih =>
    simp only [hasMatch, Bool.or_eq_false_iff]
    refine ⟨?_, ih fun d hd => h d (List.mem_cons_of_mem c hd)⟩
    rw [tryDate_head_none c rest (h c (List.mem_cons_self c rest))]
    rfl

/-- The array-element pattern needs a `[` or `,` to start. -/
theorem tryArrElem_head_none (c : Char) (rest : List Char) (h1 : c ≠ '[') (h2 : c ≠ ',') :
    tryArrElem (c :: rest) = none := by
  simp only [tryArrElem]
  rw [if_neg (by simp [h1, h2])]

/-- The array-element pass fires nowhere on text without `[` or `,`. -/
theorem hasMatch_tryArrElem_false (s : List Char) (h : ∀ c ∈ s, c ≠ '[' ∧ c ≠ ',') :
    hasMatch tryArrElem s = false := by
  induction s with
  | nil => rfl
  | cons c rest ih =>
    simp only [hasMatch, Bool.or_eq_false_iff]
    refine ⟨?_, ih fun d hd => h d (List.mem_cons_of_mem c hd)⟩
    rw [tryArrElem_head_none c rest (h c (List.mem_cons_self c rest)).1
      (h c (List.mem_cons_self c rest)).2]
    rfl

/-- The `ObjectId` matcher succeeds exactly on a whole
`ObjectId("<24 lowercase hex>")` call, producing its structured
replacement. -/
theorem tryOid_exact (h : List Char) (hlen : h.length = 24) (hhex : h.all isHexLower = true) :
    tryOid ("ObjectId(\"".data ++ h ++ "\")".data) =
      some ("\x7b\"$oid\": \"".data ++ h ++ "\"\x7d".data, []) := by
  have e10 : ("ObjectId(\"".data ++ (h ++ "\")".data)).take 10 = "ObjectId(\"".data := by
    rw [show (10 : Nat) = ("ObjectId(\"".data).length from rfl, List.take_left]
  have ed10 : ("ObjectId(\"".data ++ (h ++ "\")".data)).drop 10 = h ++ "\")".data := by
    rw [show (10 : Nat) = ("ObjectId(\"".data).length from rfl, List.drop_left]
  have e24 : (h ++ "\")".data).take 24 = h := by
    rw [← hlen, List.take_left]
  have ed34 : ("ObjectId(\"".data ++ (h ++ "\")".data)).drop 34 = "\")".data := by
    rw [show (34 : Nat) = 10 + 24 from rfl, ← List.drop_drop, ed10, ← hlen, List.drop_left]
  have ed36 : ("ObjectId(\"".data ++ (h ++ "\")".data)).drop 36 = [] := by
    rw [show (36 : Nat) = 34 + 2 from rfl, ← List.drop_drop, ed34]
    rfl
  show tryOid ("ObjectId(\"".data ++ (h ++ "\")".data)) = _
  unfold tryOid
  rw [e10, if_pos rfl, ed10, e24, ed34, ed36]
  rw [if_pos (by simp [hlen, hhex])]

/-- A pass whose matcher consumes the whole (nonempty) input in one match
produces exactly the replacement. -/
theorem rewriteScan_total (tryf : List Char → Option (List Char × List Char))
    (s repl : List Char) (hs : s ≠ []) (h : tryf s = some (repl, [])) :
    rewriteScan tryf s.length s = repl := by
  cases s with
  | nil => exact absurd rfl hs
  | cons c rest =>
    rw [show (c :: rest).length = rest.length + 1 from rfl]
    simp only [rewriteScan, h]
    simp

/-- Stripping keeps a list whose head is not whitespace nonempty. -/
theorem pyStripL_cons_ne_nil (c : Char) (l : List Char) (hc : pyIsSpace c = false) :
    pyStripL (c :: l) ≠ [] := by
  intro h
  simp only [pyStripL] at h
  rw [List.dropWhile_cons_of_neg (by simp [hc])] at h
  have h2 := congrArg List.reverse h
  rw [List.reverse_reverse] at h2
  have h3 := List.dropWhile_eq_nil_iff.mp h2
  have := h3 c (by simp)
  rw [hc] at this
  exact Bool.noConfusion this

/-- Every character of the full `ObjectId("<hex>")` call text is harmless
for quote replacement and for the key-quoting pass (the date and array
passes run only after the call has been rewritten). -/
theorem oidCall_chars (h : List Char) (hhex : h.all isHexLower = true) :
    ∀ c ∈ "ObjectId(\"".data ++ h ++ "\")".data,
      c ≠ squo ∧ c ≠ '\x7b' ∧ c ≠ ',' := by
  intro c hc
  have hlit : ∀ d ∈ ("ObjectId(\"").data, d ≠ squo ∧ d ≠ '\x7b' ∧ d ≠ ',' := by decide
  have hsuf : ∀ d ∈ ("\")").data, d ≠ squo ∧ d ≠ '\x7b' ∧ d ≠ ',' := by decide
  rcases List.mem_append.mp hc with h1 | h2
  · rcases List.mem_append.mp h1 with h1a | h1b
    · exact hlit c h1a
    · have := isHexLower_not_special c (List.all_eq_true.mp hhex c h1b)
      exact ⟨this.1, this.2.1, this.2.2.1⟩
  · exact hsuf c h2

/-- Every character of the `{"$oid": "<hex>"}` replacement is harmless for
the date and array passes. -/
theorem oidRepl_chars (h : List Char) (hhex : h.all isHexLower = true) :
    ∀ c ∈ "\x7b\"$oid\": \"".data ++ h ++ "\"\x7d".data,
      c ≠ 'I' ∧ c ≠ '[' ∧ c ≠ ',' := by
  intro c hc
  have hlit : ∀ d ∈ ("\x7b\"$oid\": \"").data, d ≠ 'I' ∧ d ≠ '[' ∧ d ≠ ',' := by decide
  have hsuf : ∀ d ∈ ("\"\x7d").data, d ≠ 'I' ∧ d ≠ '[' ∧ d ≠ ',' := by decide
  rcases List.mem_append.mp hc with h1 | h2
  · rcases List.mem_append.mp h1 with h1a | h1b
    · exact hlit c h1a
    · have := isHexLower_not_special c (List.all_eq_true.mp hhex c h1b)
      exact ⟨this.2.2.2.2, this.2.2.2.1, this.2.2.1⟩
  · exact hsuf c h2

/-- The normalizer on a whole `ObjectId("<24 lowercase hex>")` call: steps
1, 2 leave it unchanged, step 3 rewrites it to the structured form, steps
4, 5 leave that unchanged. -/
theorem fixMongoJsonL_oid (h : List Char) (hlen : h.length = 24)
    (hhex : h.all isHexLower = true) :
    fixMongoJsonL ("ObjectId(\"".data ++ h ++ "\")".data) =
      "\x7b\"$oid\": \"".data ++ h ++ "\"\x7d".data := by
  have hchars := oidCall_chars h hhex
  have hrepl := oidRepl_chars h hhex
  have hne : pyStripL ("ObjectId(\"".data ++ h ++ "\")".data) ≠ [] := by
    show pyStripL ('O' :: ("bjectId(\"".data ++ h ++ "\")".data)) ≠ []
    exact pyStripL_cons_ne_nil _ _ (by decide)
  have hs : ("ObjectId(\"".data ++ h ++ "\")".data) ≠ [] :=
    show ('O' :: ("bjectId(\"".data ++ h ++ "\")".data)) ≠ [] from List.cons_ne_nil _ _
  simp only [fixMongoJsonL]
  rw [if_neg hne]
  rw [replaceQuotes_of_no_quote _ (fun c hc => (hchars c hc).1)]
  rw [rewriteScan_of_no_match tryKey _ _
    (hasMatch_tryKey_false _ (fun c hc => ⟨(hchars c hc).2.1, (hchars c hc).2.2⟩))]
  rw [rewriteScan_total tryOid _ _ hs (tryOid_exact h hlen hhex)]
  rw [rewriteScan_of_no_match tryDate _ _
    (hasMatch_tryDate_false _ (fun c hc => (hrepl c hc).1))]
  rw [rewriteScan_of_no_match tryArrElem _ _
    (hasMatch_tryArrElem_false _ (fun c hc => ⟨(hrepl c hc).2.1, (hrepl c hc).2.2⟩))]

/-- C7: for every 24-character lowercase-hex payload, the normalizer
rewrites the constructor call `ObjectId("<hex>")` to the structured form
`{"$oid": "<hex>"}`; `ISODate("<text>")` becomes `{"$date": "<text>"}`
(shown at a concrete date text); and the spec's example
`{_id: ObjectId("507f1f77bcf86cd799439011")}` normalizes and decodes to a
mapping whose `_id` value is the `$oid` mapping. -/
theorem c7_constructor_rewrite (h : List Char) (hlen : h.length = 24)
    (hhex : h.all isHexLower = true) :
    fix_mongo_json ⟨"ObjectId(\"".data ++ h ++ "\")".data⟩ =
      ⟨"\x7b\"$oid\": \"".data ++ h ++ "\"\x7d".data⟩ ∧
    fix_mongo_json "ISODate(\"2024-01-15T10:30:00Z\")" =
      "\x7b\"$date\": \"2024-01-15T10:30:00Z\"\x7d" ∧
    process_query_content "\x7b_id: ObjectId(\"507f1f77bcf86cd799439011\")\x7d" =
      .ok (.jobj [("_id", .jobj [("$oid", .jstr "507f1f77bcf86cd799439011")])]) := by
  refine ⟨?_, rfl, rfl⟩
  show (⟨fixMongoJsonL ("ObjectId(\"".data ++ h ++ "\")".data)⟩ : String) = _
  rw [fixMongoJsonL_oid h hlen hhex]

/-- C7 witness: the general rewrite at the spec's concrete hex payload. -/
theorem c7_witness :
    (("507f1f77bcf86cd799439011".data).length = 24 ∧
      ("507f1f77bcf86cd799439011".data).all isHexLower = true) ∧
    fix_mongo_json ⟨"ObjectId(\"".data ++ "507f1f77bcf86cd799439011".data ++ "\")".data⟩ =
      ⟨"\x7b\"$oid\": \"".data ++ "507f1f77bcf86cd799439011".data ++ "\"\x7d".data⟩ :=
  ⟨⟨by decide, by decide⟩,
    (c7_constructor_rewrite "507f1f77bcf86cd799439011".data (by decide) (by decide)).1⟩

/-! ## Whitespace lemmas for the compiled-chain property -/

/-- An argument-list whitespace character is Python whitespace, JSON
whitespace, not a parenthesis, not a newline, and not a digit. -/
theorem argWs_facts (c : Char) (h : argWs c = true) :
    pyIsSpace c = true ∧ isJsonWs c = true ∧ c ≠ ')' ∧ c ≠ '\n' := by
  simp only [argWs, Bool.or_eq_true, decide_eq_true_eq] at h
  rcases h with (rfl | rfl) | rfl <;> exact ⟨by decide, by decide, by decide, by decide⟩

/-- Dropping a satisfying prefix block. -/
theorem dropWhile_append_of_all (p : Char → Bool) (w l : List Char)
    (hw : ∀ c ∈ w, p c = true) :
    (w ++ l).dropWhile p = l.dropWhile p := by
  induction w with
  | nil => rfl
  | cons c tl ih =>
    rw [List.cons_append, List.dropWhile_cons_of_pos (hw c (List.mem_cons_self c tl))]
    exact ih fun d hd => hw d (List.mem_cons_of_mem c hd)

/-- Leading Python whitespace does not affect `strip`. -/
theorem pyStripL_ws_left (w l : List Char) (hw : ∀ c ∈ w, pyIsSpace c = true) :
    pyStripL (w ++ l) = pyStripL l := by
  simp only [pyStripL]
  rw [dropWhile_append_of_all pyIsSpace w l hw]

/-- `strip` of whitespace, a core delimited by non-whitespace characters,
and whitespace is the core. -/
theorem pyStripL_sandwich (wl wt mid : List Char) (c d : Char)
    (hwl : ∀ x ∈ wl, pyIsSpace x = true) (hwt : ∀ x ∈ wt, pyIsSpace x = true)
    (hc : pyIsSpace c = false) (hd : pyIsSpace d = false) :
    pyStripL (wl ++ (c :: (mid ++ [d])) ++ wt) = c :: (mid ++ [d]) := by
  rw [List.append_assoc, pyStripL_ws_left wl _ hwl]
  simp only [pyStripL]
  rw [show (c :: (mid ++ [d])) ++ wt = c :: (mid ++ ([d] ++ wt)) from by simp]
  rw [List.dropWhile_cons_of_neg (by simp [hc])]
  rw [show (c :: (mid ++ ([d] ++ wt))).reverse = (wt.reverse ++ (d :: mid.reverse)) ++ [c]
    from by simp]
  rw [List.append_assoc, dropWhile_append_of_all pyIsSpace wt.reverse _
    (fun x hx => hwt x (List.mem_reverse.mp hx))]
  rw [show (d :: mid.reverse) ++ [c] = d :: (mid.reverse ++ [c]) from by simp]
  rw [List.dropWhile_cons_of_neg (by simp [hd])]
  simp

/-- `strip` of a non-whitespace character followed by whitespace. -/
theorem pyStripL_single (c : Char) (w : List Char) (hc : pyIsSpace c = false)
    (hw : ∀ x ∈ w, pyIsSpace x = true) :
    pyStripL (c :: w) = [c] := by
  simp only [pyStripL]
  rw [List.dropWhile_cons_of_neg (by simp [hc])]
  rw [show (c :: w).reverse = w.reverse ++ [c] from by simp]
  rw [dropWhile_append_of_all pyIsSpace w.reverse _
    (fun x hx => hw x (List.mem_reverse.mp hx))]
  rw [List.dropWhile_cons_of_neg (by simp [hc])]
  simp

/-- The argument capture over text that reaches its first `)` after `a`. -/
theorem scanArgs_append (a r : List Char) (ha1 : ')' ∉ a) (ha2 : '\n' ∉ a) :
    scanArgs (a ++ ')' :: r) = some (a, r) := by
  induction a with
  | nil => simp [scanArgs]
  | cons c tl ih =>
    have hc1 : ¬(c = ')') := fun e => ha1 (by simp [e])
    have hc2 : ¬(c = '\n') := fun e => ha2 (by simp [e])
    rw [List.cons_append]
    simp only [scanArgs]
    rw [if_neg hc1, if_neg hc2,
      ih (fun e => ha1 (List.mem_cons_of_mem c e)) (fun e => ha2 (List.mem_cons_of_mem c e))]

/-- The remainder capture keeps newline-free text whole. -/
theorem takeLine_all (l : List Char) (h : ∀ c ∈ l, c ≠ '\n') : takeLine l = l := by
  induction l with
  | nil => rfl
  | cons c tl ih =>
    simp only [takeLine]
    rw [List.takeWhile_cons_of_pos (by simp [h c (List.mem_cons_self c tl)])]
    exact congrArg (List.cons c) (ih fun d hd => h d (List.mem_cons_of_mem c hd))

/-- The head pattern on the canonical `db.c.find(` prefix reduces to the
argument scan. -/
theorem matchHead_c2bridge (T : List Char) :
    matchHead ('d' :: 'b' :: '.' :: 'c' :: '.' :: 'f' :: 'i' :: 'n' :: 'd' :: '(' :: T) =
      match scanArgs T with
      | none => none
      | some (a, r) => some ("c", "find", ⟨a⟩, takeLine r) := by rfl

/-- The chain pattern on the canonical `.limit(` prefix reduces to the
argument scan. -/
theorem matchNext_c2bridge (T : List Char) :
    matchNext ('.' :: 'l' :: 'i' :: 'm' :: 'i' :: 't' :: '(' :: T) =
      match scanArgs T with
      | none => none
      | some (a, r) => some ("limit", ⟨a⟩, takeLine r) := by rfl

/-- The chain loop on a blank remainder stops. -/
theorem parseLoop_nil (fuel : Nat) (acc : List OperationCall) :
    parseLoop fuel [] acc = acc := by
  cases fuel <;> simp [parseLoop, pyStripL]

/-- One unfolding of the chain loop on a non-blank remainder. -/
theorem parseLoop_step (fuel : Nat) (rem : List Char) (acc : List OperationCall)
    (hne : pyStripL rem ≠ []) :
    parseLoop (fuel + 1) rem acc =
      match matchNext rem with
      | none => acc
      | some (m, a, rest) => parseLoop fuel rest (acc ++ [⟨m, a⟩]) := by
  rw [parseLoop]
  rw [if_neg hne]

/-- The decoder on `{}` followed by trailing input. -/
theorem parseVal_empty_obj (n : Nat) (w : List Char) :
    parseVal (n + 1) ('\x7b' :: '\x7d' :: w) = some (.jobj [], w) := rfl

/-- C2 amended: for `db.c.find({}).limit(5)` the tokenizer-plus-compiler
result is exactly `[Find({}), Limit(5)]` on collection `c`, and it is stable
under whitespace around the whole query (`wl`, `wt`) and under
space/tab/carriage-return whitespace inside either pair of parentheses
(`w1`–`w4`) — but not under every whitespace variation: whitespace touching
the chain skeleton changes the result (see the counterexample). -/
theorem c2_amended_whitespace (wl w1 w2 w3 w4 wt : List Char)
    (hwl : ∀ c ∈ wl, pyIsSpace c = true) (hwt : ∀ c ∈ wt, pyIsSpace c = true)
    (h1 : ∀ c ∈ w1, argWs c = true) (h2 : ∀ c ∈ w2, argWs c = true)
    (h3 : ∀ c ∈ w3, argWs c = true) (h4 : ∀ c ∈ w4, argWs c = true) :
    parse_query_string (mkC2Input wl w1 w2 w3 w4 wt) =
      .ok ⟨"c", [⟨"find", ⟨w1 ++ "\x7b\x7d".data ++ w2⟩⟩, ⟨"limit", ⟨w3 ++ ['5'] ++ w4⟩⟩]⟩ ∧
    parseCompile (mkC2Input wl w1 w2 w3 w4 wt) =
      .ok ("c", [("find", .jsonArg (.jobj [])), ("limit", .intArg 5)]) := by
  have hp1 : ∀ c ∈ w1, pyIsSpace c = true := fun c hc => (argWs_facts c (h1 c hc)).1
  have hp2 : ∀ c ∈ w2, pyIsSpace c = true := fun c hc => (argWs_facts c (h2 c hc)).1
  have hp3 : ∀ c ∈ w3, pyIsSpace c = true := fun c hc => (argWs_facts c (h3 c hc)).1
  have hp4 : ∀ c ∈ w4, pyIsSpace c = true := fun c hc => (argWs_facts c (h4 c hc)).1
  have hj1 : ∀ c ∈ w1, isJsonWs c = true := fun c hc => (argWs_facts c (h1 c hc)).2.1
  have hj2 : ∀ c ∈ w2, isJsonWs c = true := fun c hc => (argWs_facts c (h2 c hc)).2.1
  have hnp1 : ')' ∉ w1 ++ "\x7b\x7d".data ++ w2 := by
    intro hmem
    rcases List.mem_append.mp hmem with hA | hB
    · rcases List.mem_append.mp hA with hC | hD
      · exact (argWs_facts _ (h1 _ hC)).2.2.1 rfl
      · exact (by decide : ∀ x ∈ "\x7b\x7d".data, x ≠ ')') _ hD rfl
    · exact (argWs_facts _ (h2 _ hB)).2.2.1 rfl
  have hnn1 : '\n' ∉ w1 ++ "\x7b\x7d".data ++ w2 := by
    intro hmem
    rcases List.mem_append.mp hmem with hA | hB
    · rcases List.mem_append.mp hA with hC | hD
      · exact (argWs_facts _ (h1 _ hC)).2.2.2 rfl
      · exact (by decide : ∀ x ∈ "\x7b\x7d".data, x ≠ '\n') _ hD rfl
    · exact (argWs_facts _ (h2 _ hB)).2.2.2 rfl
  have hnp2 : ')' ∉ w3 ++ ['5'] ++ w4 := by
    intro hmem
    rcases List.mem_append.mp hmem with hA | hB
    · rcases List.mem_append.mp hA with hC | hD
      · exact (argWs_facts _ (h3 _ hC)).2.2.1 rfl
      · exact (by decide : ∀ x ∈ ['5'], x ≠ ')') _ hD rfl
    · exact (argWs_facts _ (h4 _ hB)).2.2.1 rfl
  have hnn2 : '\n' ∉ w3 ++ ['5'] ++ w4 := by
    intro hmem
    rcases List.mem_append.mp hmem with hA | hB
    · rcases List.mem_append.mp hA with hC | hD
      · exact (argWs_facts _ (h3 _ hC)).2.2.2 rfl
      · exact (by decide : ∀ x ∈ ['5'], x ≠ '\n') _ hD rfl
    · exact (argWs_facts _ (h4 _ hB)).2.2.2 rfl
  have hstrip : pyStripL (mkC2Input wl w1 w2 w3 w4 wt).data =
      'd' :: (("b.c.find(".data ++ w1 ++ "\x7b\x7d".data ++ w2 ++ ").limit(".data ++
        w3 ++ ['5'] ++ w4) ++ [')']) := by
    show pyStripL (wl ++ ('d' :: (("b.c.find(".data ++ w1 ++ "\x7b\x7d".data ++ w2 ++
      ").limit(".data ++ w3 ++ ['5'] ++ w4) ++ [')'])) ++ wt) = _
    exact pyStripL_sandwich wl wt _ 'd' ')' hwl hwt (by decide) (by decide)
  have eq1 : ('d' :: (("b.c.find(".data ++ w1 ++ "\x7b\x7d".data ++ w2 ++ ").limit(".data ++
        w3 ++ ['5'] ++ w4) ++ [')'])) =
      'd' :: 'b' :: '.' :: 'c' :: '.' :: 'f' :: 'i' :: 'n' :: 'd' :: '(' :: 
        ((w1 ++ "\x7b\x7d".data ++ w2) ++ ')' ::
          (".limit(".data ++ ((w3 ++ ['5'] ++ w4) ++ [')']))) := by
    simp only [show "b.c.find(".data = 'b' :: '.' :: 'c' :: '.' :: 'f' :: 'i' :: 'n' :: 'd' :: '(' :: [] from rfl,
      show ").limit(".data = ')' :: '.' :: 'l' :: 'i' :: 'm' :: 'i' :: 't' :: '(' :: [] from rfl,
      show ".limit(".data = '.' :: 'l' :: 'i' :: 'm' :: 'i' :: 't' :: '(' :: [] from rfl,
      show "\x7b\x7d".data = '\x7b' :: '\x7d' :: [] from rfl,
      List.cons_append, List.nil_append, List.append_assoc]
  have htl : takeLine (".limit(".data ++ ((w3 ++ ['5'] ++ w4) ++ [')'])) =
      ".limit(".data ++ ((w3 ++ ['5'] ++ w4) ++ [')']) := by
    refine takeLine_all _ ?_
    intro c hc
    rcases List.mem_append.mp hc with hA | hB
    · exact (by decide : ∀ x ∈ ".limit(".data, x ≠ '\n') _ hA
    · rcases List.mem_append.mp hB with hC | hD
      · rcases List.mem_append.mp hC with hE | hF
        · rcases List.mem_append.mp hE with hG | hH
          · exact (argWs_facts _ (h3 _ hG)).2.2.2
          · exact (by decide : ∀ x ∈ ['5'], x ≠ '\n') _ hH
        · exact (argWs_facts _ (h4 _ hF)).2.2.2
      · exact (by decide : ∀ x ∈ [')'], x ≠ '\n') _ hD
  have hne2 : pyStripL (".limit(".data ++ ((w3 ++ ['5'] ++ w4) ++ [')'])) ≠ [] := by
    show pyStripL ('.' :: ("limit(".data ++ ((w3 ++ ['5'] ++ w4) ++ [')']))) ≠ []
    exact pyStripL_cons_ne_nil _ _ (by decide)
  have hloop : parseLoop (".limit(".data ++ ((w3 ++ ['5'] ++ w4) ++ [')'])).length
      (".limit(".data ++ ((w3 ++ ['5'] ++ w4) ++ [')']))
      [⟨"find", ⟨w1 ++ "\x7b\x7d".data ++ w2⟩⟩] =
      [⟨"find", ⟨w1 ++ "\x7b\x7d".data ++ w2⟩⟩, ⟨"limit", ⟨w3 ++ ['5'] ++ w4⟩⟩] := by
    rw [show (".limit(".data ++ ((w3 ++ ['5'] ++ w4) ++ [')'])).length =
      ("limit(".data ++ ((w3 ++ ['5'] ++ w4) ++ [')'])).length + 1 from rfl]
    rw [parseLoop_step _ _ _ hne2]
    rw [show (".limit(".data ++ ((w3 ++ ['5'] ++ w4) ++ [')'])) =
      '.' :: 'l' :: 'i' :: 'm' :: 'i' :: 't' :: '(' :: ((w3 ++ ['5'] ++ w4) ++ [')']) from rfl]
    rw [matchNext_c2bridge, scanArgs_append _ _ hnp2 hnn2]
    rfl
  have hparse : parse_query_string (mkC2Input wl w1 w2 w3 w4 wt) =
      .ok ⟨"c", [⟨"find", ⟨w1 ++ "\x7b\x7d".data ++ w2⟩⟩, ⟨"limit", ⟨w3 ++ ['5'] ++ w4⟩⟩]⟩ := by
    simp only [parse_query_string]
    rw [hstrip, eq1, matchHead_c2bridge, scanArgs_append _ _ hnp1 hnn1]
    show Except.ok (ParsedQuery.mk "c"
      (parseLoop (takeLine (".limit(".data ++ ((w3 ++ ['5'] ++ w4) ++ [')']))).length
        (takeLine (".limit(".data ++ ((w3 ++ ['5'] ++ w4) ++ [')'])))
        [⟨"find", ⟨w1 ++ "\x7b\x7d".data ++ w2⟩⟩])) = _
    rw [htl, hloop]
  refine ⟨hparse, ?_⟩
  have hfind : process_query_content ⟨w1 ++ "\x7b\x7d".data ++ w2⟩ = .ok (.jobj []) := by
    have hstA : pyStripL (String.mk (w1 ++ "\x7b\x7d".data ++ w2)).data ≠ [] := by
      show pyStripL (w1 ++ "\x7b\x7d".data ++ w2) ≠ []
      rw [List.append_assoc, pyStripL_ws_left w1 _ hp1]
      show pyStripL ('\x7b' :: ('\x7d' :: w2)) ≠ []
      exact pyStripL_cons_ne_nil _ _ (by decide)
    have hsw : skipWs (w1 ++ "\x7b\x7d".data ++ w2) = '\x7b' :: '\x7d' :: w2 := by
      rw [List.append_assoc]
      rw [show skipWs (w1 ++ ("\x7b\x7d".data ++ w2)) = skipWs ("\x7b\x7d".data ++ w2) from
        dropWhile_append_of_all isJsonWs w1 _ hj1]
      show List.dropWhile isJsonWs ('\x7b' :: ('\x7d' :: w2)) = _
      rw [List.dropWhile_cons_of_neg (by decide)]
    have hjl : json_loads ⟨w1 ++ "\x7b\x7d".data ++ w2⟩ = some (.jobj []) := by
      show (match parseVal (2 * (w1 ++ "\x7b\x7d".data ++ w2).length + 4)
          (skipWs (w1 ++ "\x7b\x7d".data ++ w2)) with
        | some (v, rest) => if skipWs rest = [] then some v else none
        | none => none) = some (.jobj [])
      rw [hsw]
      rw [show 2 * (w1 ++ "\x7b\x7d".data ++ w2).length + 4 =
        (2 * (w1 ++ "\x7b\x7d".data ++ w2).length + 3) + 1 from rfl]
      rw [parseVal_empty_obj]
      show (if skipWs w2 = [] then some (JVal.jobj []) else none) = some (.jobj [])
      rw [if_pos (show skipWs w2 = [] from List.dropWhile_eq_nil_iff.mpr hj2)]
    simp only [process_query_content]
    rw [if_neg hstA, hjl]
  have hlimitA : limitProc ⟨w3 ++ ['5'] ++ w4⟩ = .intArg 5 := by
    have hst5 : pyStripL (String.mk (w3 ++ ['5'] ++ w4)).data = ['5'] := by
      show pyStripL (w3 ++ ['5'] ++ w4) = ['5']
      rw [List.append_assoc, pyStripL_ws_left w3 _ hp3]
      show pyStripL ('5' :: w4) = ['5']
      exact pyStripL_single '5' w4 (by decide) hp4
    simp only [limitProc]
    rw [hst5]
    rfl
  have hca : compileArg "find" ⟨w1 ++ "\x7b\x7d".data ++ w2⟩ = .ok (.jsonArg (.jobj [])) := by
    show (process_query_content ⟨w1 ++ "\x7b\x7d".data ++ w2⟩).map ProcArg.jsonArg = _
    rw [hfind]
    rfl
  have hcl : compileArg "limit" ⟨w3 ++ ['5'] ++ w4⟩ = .ok (limitProc ⟨w3 ++ ['5'] ++ w4⟩) := rfl
  have hcops : compileOps [⟨"find", ⟨w1 ++ "\x7b\x7d".data ++ w2⟩⟩,
      ⟨"limit", ⟨w3 ++ ['5'] ++ w4⟩⟩] =
      .ok [("find", .jsonArg (.jobj [])), ("limit", .intArg 5)] := by
    simp only [compileOps]
    rw [show pyLower "find" = "find" from rfl, show pyLower "limit" = "limit" from rfl]
    rw [hca, hcl, hlimitA]
  simp only [parseCompile]
  rw [hparse]
  show (match compileOps [⟨"find", ⟨w1 ++ "\x7b\x7d".data ++ w2⟩⟩,
      ⟨"limit", ⟨w3 ++ ['5'] ++ w4⟩⟩] with
    | .ok ops => Except.ok ("c", ops)
    | .error m => .error m) = _
  rw [hcops]

/-- C2 witness: the amended statement at concrete whitespace fillers
(leading space, spaces/tabs inside both argument lists, trailing newline). -/
theorem c2_witness :
    ([' '].all pyIsSpace = true ∧ ['\n'].all pyIsSpace = true ∧
      [' '].all argWs = true ∧ ['\t'].all argWs = true) ∧
    parse_query_string (mkC2Input [' '] [' '] [] ['\t'] [' '] ['\n']) =
      .ok ⟨"c", [⟨"find", ⟨[' '] ++ "\x7b\x7d".data ++ []⟩⟩,
        ⟨"limit", ⟨['\t'] ++ ['5'] ++ [' ']⟩⟩]⟩ ∧
    parseCompile (mkC2Input [' '] [' '] [] ['\t'] [' '] ['\n']) =
      .ok ("c", [("find", .jsonArg (.jobj [])), ("limit", .intArg 5)]) :=
  ⟨⟨by decide, by decide, by decide, by decide⟩,
    (c2_amended_whitespace [' '] [' '] [] ['\t'] [' '] ['\n'] (by decide) (by decide)
      (by decide) (by decide) (by decide) (by decide)).1,
    (c2_amended_whitespace [' '] [' '] [] ['\t'] [' '] ['\n'] (by decide) (by decide)
      (by decide) (by decide) (by decide) (by decide)).2⟩
